import Mathlib

/-!
Shallow embedding of `libyul/YulStack.cpp` (the Yul pipeline orchestration core):
the pipeline state machine, the recursive analysis and optimization drivers over
the object tree, the round-trip reparse verifier, and the creation/deployed
assembly selection. External collaborators (object parser, semantic analyzer,
optimiser suite, msize scan, printer, EVM object compiler, assembly optimiser,
encoder) are modelled as a bundle of abstract functions consumed through their
fixed contracts, exactly where the source calls out to them.
-/

/-- AST root of one code unit; opaque to the orchestration core. -/
abbrev Code := Nat

/-- Pipeline stage reached by a `YulStack` instance. -/
inductive StackState where
  | Empty
  | Parsed
  | AnalysisSuccessful
deriving DecidableEq

/-- Numeric rank of a pipeline stage, giving the order `Empty < Parsed < AnalysisSuccessful`. -/
def StackState.toNat : StackState → Nat
  | .Empty => 0
  | .Parsed => 1
  | .AnalysisSuccessful => 2

/-- The `m_stackState >= X` comparison used by the source's stage preconditions. -/
def StackState.geq (a b : StackState) : Bool := b.toNat ≤ a.toNat

/-- The source language variants accepted by the stack (`YulStack::Language`). -/
inductive YulStack.Language where
  | Assembly
  | StrictAssembly
  | Yul
deriving DecidableEq

/-- A structured diagnostic accumulated by the error reporter. -/
inductive Diag where
  | unimplementedFeature (loc : Nat) (msg : String)
  | err (msg : String)
deriving DecidableEq

/-- `UnimplementedFeatureError`: a distinguished fault with an optional comment and
    a source location. -/
structure UFE where
  comment : Option String
  loc : Nat
deriving DecidableEq

/-- An unrecoverable internal assertion failure (`yulAssert` / `solAssert`). -/
inductive Fatal where
  | assertFailure (msg : String)
deriving DecidableEq

/-- The retained character stream: original source text and source name. -/
structure CharStream where
  source : String
  name : String
deriving DecidableEq

/-- The optimiser configuration consumed read-only by the stack. -/
structure OptimiserSettings where
  runYulOptimiser : Bool
  optimizeStackAllocation : Bool
  yulOptimiserSteps : String
  yulOptimiserCleanupSteps : String
  expectedExecutionsPerDeployment : Nat
deriving DecidableEq

/-- Modelled from the spec: the built-in default Yul optimiser step sequence
    (`OptimiserSettings::DefaultYulOptimiserSteps`, defined outside this source
    file). Only its distinctness from the canonical empty sequence matters here. -/
def DefaultYulOptimiserSteps : String := "dhfoDgvulfnTUtnIf"

/-- Modelled from the spec: the built-in default Yul optimiser cleanup sequence
    (`OptimiserSettings::DefaultYulOptimiserCleanupSteps`, defined outside this
    source file). -/
def DefaultYulOptimiserCleanupSteps : String := "fDnTOcmu"

namespace OptimiserSuite

/-- Modelled from the spec: `OptimiserSuite::isEmptyOptimizerSequence` (defined in
    `libyul/optimiser/Suite.cpp`, outside this source file) recognises the
    canonical "run nothing" sequence: empty steps and empty cleanup joined by the
    `:` separator. -/
def isEmptyOptimizerSequence (s : String) : Bool := s = ":"

end OptimiserSuite

/-- Modelled from the spec: `boost::ends_with` (an external library call): whether
    the name carries the given suffix. -/
def boostEndsWith (s post : String) : Bool := List.isSuffixOf post.data s.data

/-- The object tree: a code unit (`Object`) holds a name, an optional AST root, a
    flag for present analysis metadata and an ordered list of sub-nodes; a data
    node (`ObjectNode` that is not an `Object`) only holds a name. -/
inductive ObjectNode where
  | object (name : String) (code : Option Code) (analysisInfo : Bool) (subObjects : List ObjectNode)
  | data (name : String)

/-- `Object::hasCode`: a unit has code iff its AST root is present. -/
def ObjectNode.hasCode : ObjectNode → Bool
  | .object _ c _ _ => c.isSome
  | .data _ => false

/-- Whether the node's analysis metadata is present. -/
def ObjectNode.analysisInfoSet : ObjectNode → Bool
  | .object _ _ i _ => i
  | .data _ => false

/-- Whether the node is a code unit (the `dynamic_cast<Object*>` test). -/
def ObjectNode.isObject : ObjectNode → Bool
  | .object _ _ _ _ => true
  | .data _ => false

/-- A target-machine assembly: name, opaque item list handle and sub-assemblies. -/
inductive Assembly where
  | mk (name : String) (items : Nat) (subs : List Assembly)

/-- Name of an assembly. -/
def Assembly.name : Assembly → String
  | .mk n _ _ => n

/-- Sub-assemblies of an assembly. -/
def Assembly.subs : Assembly → List Assembly
  | .mk _ _ s => s

/-- The encoded binary artifact: bytecode plus leftover immutable references. -/
structure LinkerObject where
  bytecode : List Nat
  immutableReferences : List String
deriving DecidableEq

/-- One member of the creation/deployed output pair. -/
structure MachineAssemblyObject where
  bytecode : Option LinkerObject
  assembly : Option Assembly
  sourceMappings : Option String

/-- A default-constructed, unfilled output object. -/
def MachineAssemblyObject.empty : MachineAssemblyObject :=
  { bytecode := none, assembly := none, sourceMappings := none }

/-- Parameters the core hands to `GasMeter` construction. -/
structure GasMeter where
  isCreation : Bool
  expectedExecutionsPerDeployment : Nat
deriving DecidableEq

/-- The external collaborator services consumed by the core through fixed
    contracts: object parser, semantic analyzer, qualified-data-name query,
    optimiser suite, msize scan, AST printer, EVM object compiler, assembly
    optimiser, binary encoder and source-map computation. Fallible collaborators
    return `Except UFE`; the compiler additionally yields its partially built
    assembly when it faults, mirroring in-place mutation of the output sink. -/
structure Env where
  parseResult : String → String → Except UFE (Option ObjectNode × List Diag)
  analyze : Code → List String → Except UFE (Bool × List Diag)
  qualifiedDataNames : ObjectNode → List String
  suiteRun : Code → Option GasMeter → Bool → String → String → Option Nat → Except UFE Code
  containsMSize : ObjectNode → Bool
  printObject : ObjectNode → String
  compile : ObjectNode → Bool → Assembly × Option UFE
  optimise : Assembly → Assembly
  encode : Assembly → Except UFE LinkerObject
  sourceMapping : Assembly → String → String

/-- The pipeline instance: configuration plus the mutable stage state, retained
    char stream, current object tree and accumulated diagnostics. -/
structure YulStack where
  evmVersion : Nat
  eofVersion : Option Nat
  language : YulStack.Language
  optimiserSettings : OptimiserSettings
  debugInfoSelection : Nat
  stackState : StackState
  charStream : Option CharStream
  parserResult : Option ObjectNode
  errors : List Diag

/-- Modelled from the spec: the `YulStack` constructor (declared in `YulStack.h`,
    outside this source file) produces a fresh instance in state `Empty` with no
    source, no tree and no diagnostics, carrying the given configuration. -/
def freshStack (evmVersion : Nat) (eofVersion : Option Nat) (language : YulStack.Language)
    (settings : OptimiserSettings) (debugInfoSelection : Nat) : YulStack :=
  { evmVersion := evmVersion, eofVersion := eofVersion, language := language,
    optimiserSettings := settings, debugInfoSelection := debugInfoSelection,
    stackState := .Empty, charStream := none, parserResult := none, errors := [] }

/-- `YulStack::reportUnimplementedFeatureError`: asserts that the fault carries a
    message for the user, then converts it into diagnostic `1920`. -/
def reportUnimplementedFeatureError (e : UFE) : Except Fatal Diag :=
  match e.comment with
  | none => .error (.assertFailure "Unimplemented feature errors must include a message for the user")
  | some c => .ok (.unimplementedFeature e.loc c)

/-- `YulStack::parse`: requires state `Empty`; installs the char stream, runs the
    object parser (an unimplemented-feature fault becomes a diagnostic), then
    moves to `Parsed` iff the accumulated error list is empty, reporting success
    iff the state is now `Parsed`. -/
def YulStack.parse (env : Env) (s : YulStack) (sourceName source : String) :
    Except Fatal (Bool × YulStack) :=
  if s.stackState = .Empty then
    let s1 := { s with charStream := some { source := source, name := sourceName } }
    let afterTry : Except Fatal YulStack :=
      match env.parseResult sourceName source with
      | .ok (res, diags) => .ok { s1 with parserResult := res, errors := s1.errors ++ diags }
      | .error e =>
          match reportUnimplementedFeatureError e with
          | .error f => .error f
          | .ok d => .ok { s1 with errors := s1.errors ++ [d] }
    match afterTry with
    | .error f => .error f
    | .ok s2 =>
        let s3 := if s2.errors.isEmpty then { s2 with stackState := .Parsed } else s2
        .ok (s3.stackState == .Parsed, s3)
  else .error (.assertFailure "m_stackState == Empty")

mutual

/-- `YulStack::analyzeParsed(Object&)`: asserts state at least `Parsed` and a
    code-bearing unit, installs fresh analysis metadata, runs the semantic
    analyzer on the unit's own root (a fault is converted to a diagnostic, counts
    as failure and skips this unit's sub-loop), then visits every sub-object; if
    the combined result is success, the stack state is set to
    `AnalysisSuccessful` in this very call. -/
def YulStack.analyzeParsedObj (env : Env) (s : YulStack) :
    ObjectNode → Except Fatal (Bool × ObjectNode × YulStack)
  | .data _ => .error (.assertFailure "_object.hasCode()")
  | .object name code _info subs =>
    if s.stackState.geq .Parsed then
      match code with
      | none => .error (.assertFailure "_object.hasCode()")
      | some root =>
          match env.analyze root (env.qualifiedDataNames (.object name (some root) true subs)) with
          | .error e =>
              match reportUnimplementedFeatureError e with
              | .error f => .error f
              | .ok d =>
                  .ok (false, .object name (some root) true subs, { s with errors := s.errors ++ [d] })
          | .ok (ownSuccess, diags) =>
              let s1 := { s with errors := s.errors ++ diags }
              match YulStack.analyzeSubs env s1 subs with
              | .error f => .error f
              | .ok (subsSuccess, subs2, s2) =>
                  let success := ownSuccess && subsSuccess
                  let s3 := if success then { s2 with stackState := .AnalysisSuccessful } else s2
                  .ok (success, .object name (some root) true subs2, s3)
    else .error (.assertFailure "m_stackState >= Parsed")

/-- The sub-object loop of `YulStack::analyzeParsed(Object&)`: every sub-node is
    visited in order; a failing sub-object flips the running success flag without
    stopping the loop; data nodes are skipped. -/
def YulStack.analyzeSubs (env : Env) (s : YulStack) :
    List ObjectNode → Except Fatal (Bool × List ObjectNode × YulStack)
  | [] => .ok (true, [], s)
  | .data dn :: rest =>
      match YulStack.analyzeSubs env s rest with
      | .error f => .error f
      | .ok (restOk, rest2, s2) => .ok (restOk, .data dn :: rest2, s2)
  | .object oname ocode oinfo osubs :: rest =>
      match YulStack.analyzeParsedObj env s (.object oname ocode oinfo osubs) with
      | .error f => .error f
      | .ok (headOk, n2, s1) =>
          match YulStack.analyzeSubs env s1 rest with
          | .error f => .error f
          | .ok (restOk, rest2, s2) => .ok (headOk && restOk, n2 :: rest2, s2)

end

/-- `YulStack::analyzeParsed()`: asserts state at least `Parsed` and a present
    parser result, then runs the recursive analyzer on the root object, storing
    the updated tree back. -/
def YulStack.analyzeParsed (env : Env) (s : YulStack) : Except Fatal (Bool × YulStack) :=
  if s.stackState.geq .Parsed then
    match s.parserResult with
    | none => .error (.assertFailure "m_parserResult")
    | some o =>
        match YulStack.analyzeParsedObj env s o with
        | .error f => .error f
        | .ok (ok, o2, s2) => .ok (ok, { s2 with parserResult := some o2 })
  else .error (.assertFailure "m_stackState >= Parsed")

/-- `YulStack::parseAndAnalyze`: clears the diagnostics, asserts state `Empty`,
    parses, and on parse success asserts a code-bearing parser result and
    analyzes it. -/
def YulStack.parseAndAnalyze (env : Env) (s : YulStack) (sourceName source : String) :
    Except Fatal (Bool × YulStack) :=
  let s0 := { s with errors := [] }
  if s0.stackState = .Empty then
    match YulStack.parse env s0 sourceName source with
    | .error f => .error f
    | .ok (false, s1) => .ok (false, s1)
    | .ok (true, s1) =>
        if s1.stackState = .Parsed then
          match s1.parserResult with
          | none => .error (.assertFailure "m_parserResult")
          | some o =>
              if o.hasCode then YulStack.analyzeParsed env s1
              else .error (.assertFailure "m_parserResult->hasCode()")
        else .error (.assertFailure "m_stackState == Parsed")
  else .error (.assertFailure "m_stackState == Empty")

/-- `YulStack::print` (no solidity source provider): asserts state at least
    `Parsed` and a code-bearing tree, then returns the printed tree followed by a
    newline. -/
def YulStack.print (env : Env) (s : YulStack) : Except Fatal String :=
  if s.stackState.geq .Parsed then
    match s.parserResult with
    | none => .error (.assertFailure "m_parserResult")
    | some o =>
        if o.hasCode then .ok (env.printObject o ++ "\n")
        else .error (.assertFailure "m_parserResult->hasCode()")
  else .error (.assertFailure "m_stackState >= Parsed")

/-- `YulStack::reparse`: prints the whole current tree, feeds the text to a
    brand-new pipeline instance with the same configuration, asserts that
    parse+analysis of the regenerated source succeeds, then adopts the fresh
    instance's tree and sets state `AnalysisSuccessful`; the char stream and the
    accumulated errors of the original instance are kept. -/
def YulStack.reparse (env : Env) (s : YulStack) : Except Fatal YulStack :=
  match s.parserResult with
  | none => .error (.assertFailure "m_parserResult")
  | some _ =>
      match s.charStream with
      | none => .error (.assertFailure "m_charStream")
      | some cs =>
          match YulStack.print env s with
          | .error f => .error f
          | .ok source =>
              let cleanStack := freshStack s.evmVersion s.eofVersion s.language
                s.optimiserSettings s.debugInfoSelection
              match YulStack.parseAndAnalyze env cleanStack cs.name source with
              | .error f => .error f
              | .ok (reanalysisSuccessful, clean2) =>
                  if reanalysisSuccessful then
                    .ok { s with stackState := .AnalysisSuccessful,
                                 parserResult := clean2.parserResult }
                  else .error (.assertFailure ("Invalid IR generated:\n" ++ source))

/-- The step-sequence resolution lambda inside `YulStack::optimize(Object&, bool)`:
    with the optimiser suite disabled, the canonical empty combined sequence
    yields stack allocation on with empty steps and cleanup; otherwise the
    configuration must equal the built-in defaults (asserted) and the resolution
    is stack allocation on with the single cleanup step `u` and empty cleanup;
    with the suite enabled the configured settings are used verbatim. -/
def resolveOptimizationTriple (cfg : OptimiserSettings) : Except Fatal (Bool × String × String) :=
  if cfg.runYulOptimiser then
    .ok (cfg.optimizeStackAllocation, cfg.yulOptimiserSteps, cfg.yulOptimiserCleanupSteps)
  else
    if OptimiserSuite.isEmptyOptimizerSequence
        (cfg.yulOptimiserSteps ++ ":" ++ cfg.yulOptimiserCleanupSteps) then
      .ok (true, "", "")
    else
      if cfg.yulOptimiserSteps == DefaultYulOptimiserSteps &&
          cfg.yulOptimiserCleanupSteps == DefaultYulOptimiserCleanupSteps then
        .ok (true, "u", "")
      else .error (.assertFailure "m_optimiserSettings.yulOptimiserSteps == OptimiserSettings::DefaultYulOptimiserSteps")

mutual

/-- `YulStack::optimize(Object&, bool)`: asserts code and analysis metadata, first
    optimizes every sub-object (post-order), classifying a sub-unit as creation
    code iff its name does not end in `_deployed`, then builds the gas meter (the
    dialect is always an EVM dialect here) and runs the optimiser suite on this
    unit's own AST, passing the expected-executions weight only for non-creation
    units. A fault from the suite leaves the partially mutated tree behind and is
    handed back to the caller together with that tree. -/
def YulStack.optimizeObj (env : Env) (cfg : OptimiserSettings) :
    ObjectNode → Bool → Except Fatal (ObjectNode × Option UFE)
  | .data _, _ => .error (.assertFailure "_object.hasCode()")
  | .object name code info subs, isCreation =>
    match code with
    | none => .error (.assertFailure "_object.hasCode()")
    | some root =>
        if info then
          match YulStack.optimizeSubs env cfg subs with
          | .error f => .error f
          | .ok (subs2, some e) => .ok (.object name (some root) info subs2, some e)
          | .ok (subs2, none) =>
              let meter : Option GasMeter :=
                some { isCreation := isCreation,
                       expectedExecutionsPerDeployment := cfg.expectedExecutionsPerDeployment }
              match resolveOptimizationTriple cfg with
              | .error f => .error f
              | .ok (optimizeStackAllocation, steps, cleanup) =>
                  match env.suiteRun root meter optimizeStackAllocation steps cleanup
                      (if isCreation then none
                       else some cfg.expectedExecutionsPerDeployment) with
                  | .error e => .ok (.object name (some root) info subs2, some e)
                  | .ok root2 => .ok (.object name (some root2) info subs2, none)
        else .error (.assertFailure "_object.analysisInfo")

/-- The sub-object loop of `YulStack::optimize(Object&, bool)`: each sub-object is
    optimized in order with the suffix-derived creation flag; a fault stops the
    loop, leaving later siblings untouched; data nodes are skipped. -/
def YulStack.optimizeSubs (env : Env) (cfg : OptimiserSettings) :
    List ObjectNode → Except Fatal (List ObjectNode × Option UFE)
  | [] => .ok ([], none)
  | .data dn :: rest =>
      match YulStack.optimizeSubs env cfg rest with
      | .error f => .error f
      | .ok (rest2, e) => .ok (.data dn :: rest2, e)
  | .object oname ocode oinfo osubs :: rest =>
      match YulStack.optimizeObj env cfg (.object oname ocode oinfo osubs)
          (!boostEndsWith oname "_deployed") with
      | .error f => .error f
      | .ok (n2, some e) => .ok (n2 :: rest, some e)
      | .ok (n2, none) =>
          match YulStack.optimizeSubs env cfg rest with
          | .error f => .error f
          | .ok (rest2, e) => .ok (n2 :: rest2, e)

end

/-- `YulStack::optimize()`: requires state at least `AnalysisSuccessful` and a
    tree; with the optimiser suite disabled and msize present, returns with
    nothing changed; otherwise drops the state to `Parsed`, optimizes the whole
    tree (the root as creation code) and reparses; an unimplemented-feature fault
    from the optimiser is recorded as a diagnostic, leaving the partially mutated
    tree and the transient `Parsed` state behind. -/
def YulStack.optimize (env : Env) (s : YulStack) : Except Fatal YulStack :=
  if s.stackState.geq .AnalysisSuccessful then
    match s.parserResult with
    | none => .error (.assertFailure "m_parserResult")
    | some o =>
        if !s.optimiserSettings.runYulOptimiser && env.containsMSize o then
          .ok s
        else
          let s1 := { s with stackState := .Parsed }
          match YulStack.optimizeObj env s1.optimiserSettings o true with
          | .error f => .error f
          | .ok (o2, some e) =>
              let s2 := { s1 with parserResult := some o2 }
              match reportUnimplementedFeatureError e with
              | .error f => .error f
              | .ok d => .ok { s2 with errors := s2.errors ++ [d] }
          | .ok (o2, none) =>
              YulStack.reparse env { s1 with parserResult := some o2 }
  else .error (.assertFailure "Analysis was not successful.")

/-- `YulStack::assembleEVMWithDeployed`: asserts an analyzed code-bearing tree,
    decides whether stack allocation must run (explicitly requested, or suite
    disabled with no msize in the tree), compiles the tree into a fresh assembly
    (a fault becomes a diagnostic and the partially built assembly is returned
    with no deployed part), runs the assembly optimiser, then selects the
    deployed sub-assembly: the first exact name match when a deploy name is given
    (fatal when none matches), else the single sub-assembly when there is exactly
    one. -/
def YulStack.assembleEVMWithDeployed (env : Env) (s : YulStack) (deployName : Option String) :
    Except Fatal ((Option Assembly × Option Assembly) × YulStack) :=
  if s.stackState.geq .AnalysisSuccessful then
    match s.parserResult with
    | none => .error (.assertFailure "m_parserResult")
    | some o =>
        if o.hasCode then
          if o.analysisInfoSet then
            let doStackOpt := s.optimiserSettings.optimizeStackAllocation ||
              (!s.optimiserSettings.runYulOptimiser && !env.containsMSize o)
            match env.compile o doStackOpt with
            | (asmPartial, some e) =>
                match reportUnimplementedFeatureError e with
                | .error f => .error f
                | .ok d => .ok ((some asmPartial, none), { s with errors := s.errors ++ [d] })
            | (asm0, none) =>
                let asm1 := env.optimise asm0
                match deployName with
                | some nm =>
                    match asm1.subs.find? (fun sub => sub.name == nm) with
                    | none => .error (.assertFailure "Failed to find object to be deployed.")
                    | some runtimeAssembly => .ok ((some asm1, some runtimeAssembly), s)
                | none =>
                    match asm1.subs with
                    | [runtimeAssembly] => .ok ((some asm1, some runtimeAssembly), s)
                    | _ => .ok ((some asm1, none), s)
          else .error (.assertFailure "m_parserResult->analysisInfo")
        else .error (.assertFailure "m_parserResult->hasCode()")
  else .error (.assertFailure "m_stackState >= AnalysisSuccessful")

/-- `YulStack::assembleWithDeployed`: obtains the creation/deployed assembly pair,
    encodes the creation assembly (asserting no leftover immutable references) and
    computes its source mapping against the retained source name, then does the
    same for the deployed assembly when present; an unimplemented-feature fault
    during encoding becomes a diagnostic, leaving the partially filled objects. -/
def YulStack.assembleWithDeployed (env : Env) (s : YulStack) (deployName : Option String) :
    Except Fatal ((MachineAssemblyObject × MachineAssemblyObject) × YulStack) :=
  match YulStack.assembleEVMWithDeployed env s deployName with
  | .error f => .error f
  | .ok ((creationOpt, deployedOpt), s1) =>
      match creationOpt with
      | none => .error (.assertFailure "creationAssembly")
      | some creationAssembly =>
          match s1.charStream with
          | none => .error (.assertFailure "m_charStream")
          | some cs =>
              match env.encode creationAssembly with
              | .error e =>
                  match reportUnimplementedFeatureError e with
                  | .error f => .error f
                  | .ok d =>
                      .ok ((MachineAssemblyObject.empty, MachineAssemblyObject.empty),
                           { s1 with errors := s1.errors ++ [d] })
              | .ok lo =>
                  if lo.immutableReferences.isEmpty then
                    let creationObject : MachineAssemblyObject :=
                      { bytecode := some lo, assembly := some creationAssembly,
                        sourceMappings := some (env.sourceMapping creationAssembly cs.name) }
                    match deployedOpt with
                    | none => .ok ((creationObject, MachineAssemblyObject.empty), s1)
                    | some deployedAssembly =>
                        match env.encode deployedAssembly with
                        | .error e =>
                            match reportUnimplementedFeatureError e with
                            | .error f => .error f
                            | .ok d =>
                                .ok ((creationObject, MachineAssemblyObject.empty),
                                     { s1 with errors := s1.errors ++ [d] })
                        | .ok lo2 =>
                            let deployedObject : MachineAssemblyObject :=
                              { bytecode := some lo2, assembly := some deployedAssembly,
                                sourceMappings := some (env.sourceMapping deployedAssembly cs.name) }
                            .ok ((creationObject, deployedObject), s1)
                  else .error (.assertFailure "Leftover immutables.")

/-- The target machine selector (only EVM remains). -/
inductive Machine where
  | EVM
deriving DecidableEq

/-- `YulStack::assemble`: asserts an analyzed code-bearing tree and, for the EVM
    machine, returns the creation member of `assembleWithDeployed` with no deploy
    name supplied. -/
def YulStack.assemble (env : Env) (s : YulStack) (machine : Machine) :
    Except Fatal (MachineAssemblyObject × YulStack) :=
  if s.stackState.geq .AnalysisSuccessful then
    match s.parserResult with
    | none => .error (.assertFailure "m_parserResult")
    | some o =>
        if o.hasCode then
          if o.analysisInfoSet then
            match machine with
            | .EVM =>
                match YulStack.assembleWithDeployed env s none with
                | .error f => .error f
                | .ok (pair, s1) => .ok (pair.1, s1)
          else .error (.assertFailure "m_parserResult->analysisInfo")
        else .error (.assertFailure "m_parserResult->hasCode()")
  else .error (.assertFailure "m_stackState >= AnalysisSuccessful")

/-- The spec's literal three-case step-sequence resolution (§4.3 of the spec),
    stated for comparison with `resolveOptimizationTriple`: its first case
    resolves the disabled suite with the canonical empty sequence to
    stack-allocation OFF with empty steps and cleanup; `none` marks disabled
    configurations that are neither empty nor the built-in default, which the
    spec leaves to the internal assertion. -/
def specResolveTriple (cfg : OptimiserSettings) : Option (Bool × String × String) :=
  if cfg.runYulOptimiser then
    some (cfg.optimizeStackAllocation, cfg.yulOptimiserSteps, cfg.yulOptimiserCleanupSteps)
  else
    if OptimiserSuite.isEmptyOptimizerSequence
        (cfg.yulOptimiserSteps ++ ":" ++ cfg.yulOptimiserCleanupSteps) then
      some (false, "", "")
    else
      if cfg.yulOptimiserSteps == DefaultYulOptimiserSteps &&
          cfg.yulOptimiserCleanupSteps == DefaultYulOptimiserCleanupSteps then
        some (true, "u", "")
      else none

/-- The amended step-sequence resolution: identical to the spec's three cases
    except that the disabled-suite empty-sequence case keeps stack allocation ON. -/
def specResolveTripleAmended (cfg : OptimiserSettings) : Option (Bool × String × String) :=
  if cfg.runYulOptimiser then
    some (cfg.optimizeStackAllocation, cfg.yulOptimiserSteps, cfg.yulOptimiserCleanupSteps)
  else
    if OptimiserSuite.isEmptyOptimizerSequence
        (cfg.yulOptimiserSteps ++ ":" ++ cfg.yulOptimiserCleanupSteps) then
      some (true, "", "")
    else
      if cfg.yulOptimiserSteps == DefaultYulOptimiserSteps &&
          cfg.yulOptimiserCleanupSteps == DefaultYulOptimiserCleanupSteps then
        some (true, "u", "")
      else none

/-- Whether the configuration survives the internal assertion of the resolution
    lambda in `YulStack::optimize(Object&, bool)`. -/
def resolvable (cfg : OptimiserSettings) : Bool :=
  match resolveOptimizationTriple cfg with
  | .ok _ => true
  | .error _ => false

mutual

/-- Every code unit of the tree has an AST root. -/
def allHaveCode : ObjectNode → Bool
  | .data _ => true
  | .object _ code _ subs => code.isSome && allHaveCodeList subs

/-- List form of `allHaveCode`. -/
def allHaveCodeList : List ObjectNode → Bool
  | [] => true
  | n :: rest => allHaveCode n && allHaveCodeList rest

end

mutual

/-- Every code unit of the tree has analysis metadata installed. -/
def allInfoSet : ObjectNode → Bool
  | .data _ => true
  | .object _ _ info subs => info && allInfoSetList subs

/-- List form of `allInfoSet`. -/
def allInfoSetList : List ObjectNode → Bool
  | [] => true
  | n :: rest => allInfoSet n && allInfoSetList rest

end

mutual

/-- The semantic analyzer raises no unimplemented-feature fault on any code unit
    of the tree (it may still report failure). -/
def noAnalyzerFault (env : Env) : ObjectNode → Bool
  | .data _ => true
  | .object name code _ subs =>
      (match code with
       | none => true
       | some root =>
           match env.analyze root (env.qualifiedDataNames (.object name (some root) true subs)) with
           | .ok _ => true
           | .error _ => false) && noAnalyzerFaultList env subs

/-- List form of `noAnalyzerFault`. -/
def noAnalyzerFaultList (env : Env) : List ObjectNode → Bool
  | [] => true
  | n :: rest => noAnalyzerFault env n && noAnalyzerFaultList env rest

end

mutual

/-- Conjunction of the semantic analyzer's verdicts over a unit and every one of
    its descendant units (an absent root or a fault counts as failure). -/
def treeAnalysisOk (env : Env) : ObjectNode → Bool
  | .data _ => true
  | .object name code _ subs =>
      (match code with
       | none => false
       | some root =>
           match env.analyze root (env.qualifiedDataNames (.object name (some root) true subs)) with
           | .ok (b, _) => b
           | .error _ => false) && treeAnalysisOkList env subs

/-- List form of `treeAnalysisOk`. -/
def treeAnalysisOkList (env : Env) : List ObjectNode → Bool
  | [] => true
  | n :: rest => treeAnalysisOk env n && treeAnalysisOkList env rest

end

mutual

/-- Concatenation, in traversal order, of the diagnostics every unit's analysis
    emits. -/
def treeDiags (env : Env) : ObjectNode → List Diag
  | .data _ => []
  | .object name code _ subs =>
      (match code with
       | none => []
       | some root =>
           match env.analyze root (env.qualifiedDataNames (.object name (some root) true subs)) with
           | .ok (_, ds) => ds
           | .error _ => []) ++ treeDiagsList env subs

/-- List form of `treeDiags`. -/
def treeDiagsList (env : Env) : List ObjectNode → List Diag
  | [] => []
  | n :: rest => treeDiags env n ++ treeDiagsList env rest

end

mutual

/-- Whether the subtree rooted at some code unit of the tree analyzes fully
    successfully (the condition under which some recursive `analyzeParsed` call
    wrote `AnalysisSuccessful` into the stack state). -/
def anySubtreeOk (env : Env) : ObjectNode → Bool
  | .data _ => false
  | .object name code info subs =>
      treeAnalysisOk env (.object name code info subs) || anySubtreeOkList env subs

/-- List form of `anySubtreeOk`. -/
def anySubtreeOkList (env : Env) : List ObjectNode → Bool
  | [] => false
  | n :: rest => anySubtreeOk env n || anySubtreeOkList env rest

end

mutual

/-- The tree with fresh analysis metadata installed on every code unit — the
    shape `analyzeParsed` leaves behind when it has visited every unit. -/
def markAnalyzed : ObjectNode → ObjectNode
  | .data n => .data n
  | .object name code _ subs => .object name code true (markAnalyzedList subs)

/-- List form of `markAnalyzed`. -/
def markAnalyzedList : List ObjectNode → List ObjectNode
  | [] => []
  | n :: rest => markAnalyzed n :: markAnalyzedList rest

end

/-- A collaborator bundle identical to `base` except that its optimiser suite
    records its own weight argument in the returned AST root: `0` when the
    weight was withheld, `w + 1` when weight `w` was supplied. -/
def weightProbeEnv (base : Env) : Env :=
  { base with suiteRun := fun _ _ _ _ _ w => .ok (match w with | none => 0 | some n => n + 1) }

mutual

/-- The tree the probing optimiser run is expected to produce: each unit's new
    root is `0` for creation units and `expectedExecutionsPerDeployment + 1` for
    runtime units, where a sub-unit is a runtime unit iff its name ends in
    `_deployed` and the tree root's classification is the caller's flag. -/
def probeExpected (cfg : OptimiserSettings) : ObjectNode → Bool → ObjectNode
  | .data n, _ => .data n
  | .object name _ info subs, isCreation =>
      .object name
        (some (if isCreation then 0 else cfg.expectedExecutionsPerDeployment + 1))
        info (probeExpectedList cfg subs)

/-- List form of `probeExpected`: sub-units are classified by the `_deployed`
    name suffix. -/
def probeExpectedList (cfg : OptimiserSettings) : List ObjectNode → List ObjectNode
  | [] => []
  | .data n :: rest => .data n :: probeExpectedList cfg rest
  | .object name c i ss :: rest =>
      probeExpected cfg (.object name c i ss) (!boostEndsWith name "_deployed") ::
        probeExpectedList cfg rest

end

/-- A one-unit analyzed object tree used by the concrete runs below. -/
def simpleObject : ObjectNode := .object "object" (some 0) true []

/-- An enabled optimiser configuration with explicit step strings. -/
def enabledSettings : OptimiserSettings :=
  { runYulOptimiser := true, optimizeStackAllocation := true,
    yulOptimiserSteps := "x", yulOptimiserCleanupSteps := "y",
    expectedExecutionsPerDeployment := 2 }

/-- The disabled-suite configuration carrying the canonical empty combined step
    sequence. -/
def noOptEmptySeqSettings : OptimiserSettings :=
  { runYulOptimiser := false, optimizeStackAllocation := false,
    yulOptimiserSteps := "", yulOptimiserCleanupSteps := "",
    expectedExecutionsPerDeployment := 1 }

/-- A simple concrete collaborator bundle: the parser yields `simpleObject`, the
    analyzer succeeds silently, the optimiser suite echoes the AST, nothing
    faults. -/
def baseEnv : Env :=
  { parseResult := fun _ _ => .ok (some simpleObject, []),
    analyze := fun _ _ => .ok (true, []),
    qualifiedDataNames := fun _ => [],
    suiteRun := fun c _ _ _ _ _ => .ok c,
    containsMSize := fun _ => false,
    printObject := fun _ => "printed-ir",
    compile := fun _ _ => (Assembly.mk "root" 0 [], none),
    optimise := fun a => a,
    encode := fun _ => .ok { bytecode := [], immutableReferences := [] },
    sourceMapping := fun _ _ => "map" }

/-- An analyzed pipeline instance holding `simpleObject`. -/
def analyzedStack : YulStack :=
  { evmVersion := 0, eofVersion := none, language := .StrictAssembly,
    optimiserSettings := enabledSettings, debugInfoSelection := 0,
    stackState := .AnalysisSuccessful,
    charStream := some { source := "original-src", name := "input.yul" },
    parserResult := some simpleObject, errors := [] }

/-- A collaborator bundle whose optimiser suite always raises an
    unimplemented-feature fault (with the mandatory message). -/
def faultingSuiteEnv : Env :=
  { baseEnv with suiteRun := fun _ _ _ _ _ _ => .error { comment := some "stack too deep", loc := 7 } }

/-- A collaborator bundle whose msize scan reports the sentinel present. -/
def msizeEnv : Env :=
  { baseEnv with containsMSize := fun _ => true }

/-- The analyzed instance reconfigured with the optimiser suite disabled. -/
def noOptStack : YulStack :=
  { analyzedStack with optimiserSettings := noOptEmptySeqSettings }

/-- A two-level tree whose root unit fails analysis while its sub-unit succeeds. -/
def rootFailTree : ObjectNode :=
  .object "object" (some 0) false [.object "sub" (some 1) false []]

/-- A collaborator bundle whose analyzer rejects AST `0` (with one diagnostic)
    and accepts everything else. -/
def rootFailEnv : Env :=
  { baseEnv with analyze := fun root _ =>
      if root = 0 then .ok (false, [.err "root analysis failed"]) else .ok (true, []) }

/-- A parsed (not yet analyzed) instance holding `rootFailTree`. -/
def rootFailStack : YulStack :=
  { analyzedStack with stackState := .Parsed, parserResult := some rootFailTree }

/-- A tree with two sibling sub-units, each about to fail analysis
    independently. -/
def twoFailTree : ObjectNode :=
  .object "object" (some 0) false
    [.object "A" (some 1) false [], .object "B" (some 2) false []]

/-- A collaborator bundle whose analyzer rejects ASTs `1` and `2` with one
    diagnostic each and accepts everything else. -/
def twoFailEnv : Env :=
  { baseEnv with analyze := fun root _ =>
      (if root = 1 then .ok (false, [.err "sub A failed"])
       else if root = 2 then .ok (false, [.err "sub B failed"])
       else .ok (true, [])) }

/-- A parsed (not yet analyzed) instance holding `twoFailTree`. -/
def twoFailStack : YulStack :=
  { analyzedStack with stackState := .Parsed, parserResult := some twoFailTree }

/-- An analyzed three-child tree mixing creation units, a runtime unit and a data
    node, with a root whose own name carries the runtime suffix. -/
def probeTree : ObjectNode :=
  .object "wrapper_deployed" (some 5) true
    [.object "A" (some 6) true [], .object "A_deployed" (some 7) true [], .data "rodata"]

/-- An analyzed instance holding `probeTree`. -/
def probeStack : YulStack :=
  { analyzedStack with parserResult := some probeTree }

/-- The sub-assembly playing the deployed object in the assembly witnesses. -/
def runtimeSub : Assembly := Assembly.mk "Runtime" 1 []

/-- A collaborator bundle whose code generator produces an assembly with exactly
    one sub-assembly named `Runtime`. -/
def oneSubEnv : Env :=
  { baseEnv with compile := fun _ _ => (Assembly.mk "root" 0 [runtimeSub], none) }

/-- A fresh, empty pipeline instance. -/
def emptyStack : YulStack := freshStack 0 none .StrictAssembly enabledSettings 0

/-- A parsed pipeline instance (same content as `analyzedStack`, one stage
    earlier). -/
def parsedStack : YulStack :=
  { analyzedStack with stackState := .Parsed }

/-- The instance `analyzeParsed` produces from `rootFailStack`: overall failure,
    one diagnostic, yet state `AnalysisSuccessful` (written by the successful
    sub-unit's recursive call). -/
def rootFailResult : YulStack :=
  { rootFailStack with parserResult := some (markAnalyzed rootFailTree),
                       errors := [Diag.err "root analysis failed"],
                       stackState := .AnalysisSuccessful }

/-- C1 counterexample: at the disabled-suite configuration with the canonical
    empty combined sequence, the code resolves the triple to stack allocation ON
    while the spec's three-case definition demands OFF, so the claimed equality
    fails at this input. -/
theorem resolveTriple_disabled_empty_mismatch :
    resolveOptimizationTriple noOptEmptySeqSettings = .ok (true, "", "") ∧
    specResolveTriple noOptEmptySeqSettings = some (false, "", "") ∧
    (resolveOptimizationTriple noOptEmptySeqSettings).toOption ≠
      specResolveTriple noOptEmptySeqSettings :=
  ⟨rfl, rfl, by decide⟩

/-- C1 (amended): the triple resolved for the per-unit optimize operation equals
    the spec's three-case definition with its first case amended to keep stack
    allocation ON; in particular, any disabled-suite configuration with empty
    steps and empty cleanup resolves to (on, empty, empty), and configurations
    the amended definition leaves out are exactly the internal assertion
    failure. -/
theorem resolveTriple_matches_amended_spec :
    (∀ cfg : OptimiserSettings,
      resolveOptimizationTriple cfg =
        (specResolveTripleAmended cfg).elim
          (.error (.assertFailure
            "m_optimiserSettings.yulOptimiserSteps == OptimiserSettings::DefaultYulOptimiserSteps"))
          Except.ok) ∧
    (∀ (alloc : Bool) (execs : Nat),
      resolveOptimizationTriple
        { runYulOptimiser := false, optimizeStackAllocation := alloc,
          yulOptimiserSteps := "", yulOptimiserCleanupSteps := "",
          expectedExecutionsPerDeployment := execs } = .ok (true, "", "")) := by
  constructor
  · intro cfg
    simp only [resolveOptimizationTriple, specResolveTripleAmended]
    split_ifs <;> rfl
  · intro alloc execs
    rfl

/-- C3: with the optimiser suite disabled and the msize sentinel present in the
    tree, `optimize` is a complete no-op: it returns the input instance itself,
    with state, tree and diagnostics unchanged. -/
theorem optimize_noop_on_msize (env : Env) (s : YulStack) (o : ObjectNode)
    (hstate : s.stackState = .AnalysisSuccessful)
    (hres : s.parserResult = some o)
    (hdisabled : s.optimiserSettings.runYulOptimiser = false)
    (hmsize : env.containsMSize o = true) :
    YulStack.optimize env s = .ok s := by
  unfold YulStack.optimize
  rw [hres]
  simp [hstate, StackState.geq, StackState.toNat, hdisabled, hmsize]

/-- C3 witness: a concrete disabled-suite instance over a tree reported to
    contain msize comes back from `optimize` untouched. -/
theorem optimize_noop_on_msize_witness :
    YulStack.optimize msizeEnv noOptStack = .ok noOptStack :=
  optimize_noop_on_msize msizeEnv noOptStack simpleObject rfl rfl rfl rfl

/-- C9: invoking a stage before its required prior stage is an unrecoverable
    assertion failure: `parse` requires state `Empty`, `analyzeParsed` requires
    state at least `Parsed`, `optimize` and `assemble` require state at least
    `AnalysisSuccessful`. -/
theorem stage_preconditions (env : Env) (s : YulStack) :
    (∀ nm src, s.stackState ≠ .Empty →
        YulStack.parse env s nm src = .error (.assertFailure "m_stackState == Empty")) ∧
    (s.stackState.geq .Parsed = false →
        YulStack.analyzeParsed env s = .error (.assertFailure "m_stackState >= Parsed")) ∧
    (s.stackState.geq .AnalysisSuccessful = false →
        YulStack.optimize env s = .error (.assertFailure "Analysis was not successful.")) ∧
    (∀ m, s.stackState.geq .AnalysisSuccessful = false →
        YulStack.assemble env s m = .error (.assertFailure "m_stackState >= AnalysisSuccessful")) := by
  refine ⟨fun nm src h => ?_, fun h => ?_, fun h => ?_, fun m h => ?_⟩
  · simp [YulStack.parse, h]
  · simp [YulStack.analyzeParsed, h]
  · simp [YulStack.optimize, h]
  · simp [YulStack.assemble, h]

/-- C9 witness: concrete out-of-order invocations each trip the respective
    assertion. -/
theorem stage_preconditions_witness :
    YulStack.parse baseEnv parsedStack "n" "src" =
      .error (.assertFailure "m_stackState == Empty") ∧
    YulStack.analyzeParsed baseEnv emptyStack =
      .error (.assertFailure "m_stackState >= Parsed") ∧
    YulStack.optimize baseEnv emptyStack =
      .error (.assertFailure "Analysis was not successful.") ∧
    YulStack.assemble baseEnv emptyStack .EVM =
      .error (.assertFailure "m_stackState >= AnalysisSuccessful") :=
  ⟨(stage_preconditions baseEnv parsedStack).1 "n" "src" (by decide),
   (stage_preconditions baseEnv emptyStack).2.1 (by decide),
   (stage_preconditions baseEnv emptyStack).2.2.1 (by decide),
   (stage_preconditions baseEnv emptyStack).2.2.2 .EVM (by decide)⟩

/-- Any tree the per-unit optimizer hands back still has an AST root at the top. -/
theorem optimizeObj_hasCode (env : Env) (cfg : OptimiserSettings) (o : ObjectNode) (isC : Bool)
    (o2 : ObjectNode) (e : Option UFE)
    (h : YulStack.optimizeObj env cfg o isC = .ok (o2, e)) : o2.hasCode = true := by
  cases o with
  | data n => simp [YulStack.optimizeObj] at h
  | object name code info subs =>
    cases code with
    | none => simp [YulStack.optimizeObj] at h
    | some root =>
      simp only [YulStack.optimizeObj] at h
      split at h
      · split at h
        · exact absurd h (by simp)
        · simp only [Except.ok.injEq, Prod.mk.injEq] at h
          obtain ⟨ho, -⟩ := h
          subst ho
          rfl
        · split at h
          · exact absurd h (by simp)
          · split at h
            · simp only [Except.ok.injEq, Prod.mk.injEq] at h
              obtain ⟨ho, -⟩ := h
              subst ho
              rfl
            · simp only [Except.ok.injEq, Prod.mk.injEq] at h
              obtain ⟨ho, -⟩ := h
              subst ho
              rfl
      · exact absurd h (by simp)

/-- Unfolding `YulStack::optimize` on the non-no-op path into the per-unit
    optimizer run followed by either the fault diagnostic or the reparse. -/
theorem optimize_unfold (env : Env) (s : YulStack) (o : ObjectNode)
    (hstate : s.stackState = .AnalysisSuccessful)
    (hres : s.parserResult = some o)
    (hpath : (!s.optimiserSettings.runYulOptimiser && env.containsMSize o) = false) :
    YulStack.optimize env s =
      match YulStack.optimizeObj env s.optimiserSettings o true with
      | .error f => .error f
      | .ok (o2, some e) =>
          (match reportUnimplementedFeatureError e with
           | .error f => .error f
           | .ok d => .ok { s with stackState := .Parsed, parserResult := some o2,
                                   errors := s.errors ++ [d] })
      | .ok (o2, none) =>
          YulStack.reparse env { s with stackState := .Parsed, parserResult := some o2 } := by
  unfold YulStack.optimize
  simp only [hres, hstate]
  rw [if_pos (show (StackState.AnalysisSuccessful.geq .AnalysisSuccessful) = true from rfl)]
  simp only [hpath]
  rw [if_neg (show ¬ ((false : Bool) = true) from by simp)]

/-- Unfolding `YulStack::reparse` into one round of print plus fresh
    parse-and-analyze. -/
theorem reparse_unfold (env : Env) (s : YulStack) (o : ObjectNode) (cs : CharStream)
    (hres : s.parserResult = some o) (hcs : s.charStream = some cs)
    (hstate : s.stackState.geq .Parsed = true) (hcode : o.hasCode = true) :
    YulStack.reparse env s =
      match YulStack.parseAndAnalyze env
          (freshStack s.evmVersion s.eofVersion s.language s.optimiserSettings s.debugInfoSelection)
          cs.name (env.printObject o ++ "\n") with
      | .error f => .error f
      | .ok (true, clean2) =>
          .ok { s with stackState := .AnalysisSuccessful, parserResult := clean2.parserResult }
      | .ok (false, _) =>
          .error (.assertFailure ("Invalid IR generated:\n" ++ (env.printObject o ++ "\n"))) := by
  unfold YulStack.reparse YulStack.print
  rw [hres, hcs]
  simp only [hstate, if_true, hcode]
  cases h : YulStack.parseAndAnalyze env
      (freshStack s.evmVersion s.eofVersion s.language s.optimiserSettings s.debugInfoSelection)
      cs.name (env.printObject o ++ "\n") with
  | error f => rfl
  | ok p =>
      obtain ⟨b, clean2⟩ := p
      cases b <;> rfl

/-- C2 counterexample: with the suite enabled (the no-op path is not taken) and a
    collaborator whose optimiser suite raises an unimplemented-feature fault,
    `optimize` returns normally in the transient `Parsed` state with the original
    tree and one new diagnostic — not in `AnalysisSuccessful` with a verifier
    tree. -/
theorem optimize_fault_returns_parsed :
    YulStack.optimize faultingSuiteEnv analyzedStack =
      .ok { analyzedStack with stackState := .Parsed,
                               errors := [.unimplementedFeature 7 "stack too deep"] } ∧
    analyzedStack.optimiserSettings.runYulOptimiser = true ∧
    ¬ ((YulStack.optimize faultingSuiteEnv analyzedStack).map YulStack.stackState =
        .ok .AnalysisSuccessful) := by
  refine ⟨rfl, rfl, ?_⟩
  intro h
  rw [show (YulStack.optimize faultingSuiteEnv analyzedStack).map YulStack.stackState =
      .ok .Parsed from rfl] at h
  exact StackState.noConfusion (Except.ok.inj h)

/-- C2 (amended): on the non-no-op path, if the whole-tree optimizer pass raises
    no fault, any normal return of `optimize` is in state `AnalysisSuccessful`
    with the char stream and prior diagnostics unchanged and with the working
    tree replaced by the tree that the fresh verifier instance produced from the
    printed optimized tree; if the pass faults, `optimize` instead returns in the
    transient `Parsed` state with the partially mutated tree and one new
    diagnostic. -/
theorem optimize_after_state (env : Env) (s : YulStack) (o : ObjectNode) (cs : CharStream)
    (hstate : s.stackState = .AnalysisSuccessful)
    (hres : s.parserResult = some o)
    (hcs : s.charStream = some cs)
    (hpath : (!s.optimiserSettings.runYulOptimiser && env.containsMSize o) = false) :
    (∀ o2, YulStack.optimizeObj env s.optimiserSettings o true = .ok (o2, none) →
      ∀ s2, YulStack.optimize env s = .ok s2 →
        s2.charStream = s.charStream ∧ s2.errors = s.errors ∧
        ∃ clean, YulStack.parseAndAnalyze env
            (freshStack s.evmVersion s.eofVersion s.language s.optimiserSettings
              s.debugInfoSelection)
            cs.name (env.printObject o2 ++ "\n") = .ok (true, clean) ∧
          s2 = { s with stackState := .AnalysisSuccessful,
                        parserResult := clean.parserResult }) ∧
    (∀ o2 e m, YulStack.optimizeObj env s.optimiserSettings o true = .ok (o2, some e) →
      e.comment = some m →
      YulStack.optimize env s =
        .ok { s with stackState := .Parsed, parserResult := some o2,
                     errors := s.errors ++ [.unimplementedFeature e.loc m] }) := by
  constructor
  · intro o2 hopt s2 hs2
    rw [optimize_unfold env s o hstate hres hpath] at hs2
    simp only [hopt] at hs2
    have hcode2 : o2.hasCode = true :=
      optimizeObj_hasCode env s.optimiserSettings o true o2 none hopt
    rw [reparse_unfold env { s with stackState := .Parsed, parserResult := some o2 } o2 cs
      rfl hcs rfl hcode2] at hs2
    revert hs2
    cases hpa : YulStack.parseAndAnalyze env
        (freshStack s.evmVersion s.eofVersion s.language s.optimiserSettings s.debugInfoSelection)
        cs.name (env.printObject o2 ++ "\n") with
    | error f => intro hs2; exact absurd hs2 (by simp)
    | ok p =>
        obtain ⟨b, clean⟩ := p
        cases b with
        | false => intro hs2; exact absurd hs2 (by simp)
        | true =>
            intro hs2
            simp only [Except.ok.injEq] at hs2
            subst hs2
            exact ⟨rfl, rfl, clean, rfl, rfl⟩
  · intro o2 e m hopt hm
    rw [optimize_unfold env s o hstate hres hpath, hopt]
    simp [reportUnimplementedFeatureError, hm]

set_option maxHeartbeats 1600000 in
/-- C2 witness: a concrete fault-free run through `optimize` ends in
    `AnalysisSuccessful`, adopting the fresh verifier instance's tree. -/
theorem optimize_after_state_witness :
    analyzedStack.charStream = analyzedStack.charStream ∧
    analyzedStack.errors = analyzedStack.errors ∧
    ∃ clean, YulStack.parseAndAnalyze baseEnv
        (freshStack analyzedStack.evmVersion analyzedStack.eofVersion analyzedStack.language
          analyzedStack.optimiserSettings analyzedStack.debugInfoSelection)
        (CharStream.mk "original-src" "input.yul").name
        (baseEnv.printObject simpleObject ++ "\n") = .ok (true, clean) ∧
      analyzedStack = { analyzedStack with stackState := .AnalysisSuccessful,
                                           parserResult := clean.parserResult } :=
  (optimize_after_state baseEnv analyzedStack simpleObject
      (CharStream.mk "original-src" "input.yul") rfl rfl rfl (by decide)).1
    simpleObject rfl analyzedStack rfl

/-- C4: the round-trip verifier feeds the printed tree to a brand-new instance
    with the same configuration; any normal return has adopted that instance's
    tree with state `AnalysisSuccessful` while the char stream, source name and
    previously accumulated diagnostics of the original instance are unchanged; a
    failed re-analysis is a fatal assertion carrying the regenerated source. -/
theorem reparse_roundtrip (env : Env) (s : YulStack) (o : ObjectNode) (cs : CharStream)
    (hres : s.parserResult = some o) (hcs : s.charStream = some cs)
    (hstate : s.stackState.geq .Parsed = true) (hcode : o.hasCode = true) :
    (∀ s2, YulStack.reparse env s = .ok s2 →
      ∃ clean, YulStack.parseAndAnalyze env
          (freshStack s.evmVersion s.eofVersion s.language s.optimiserSettings
            s.debugInfoSelection)
          cs.name (env.printObject o ++ "\n") = .ok (true, clean) ∧
        s2 = { s with stackState := .AnalysisSuccessful,
                      parserResult := clean.parserResult }) ∧
    (∀ clean, YulStack.parseAndAnalyze env
          (freshStack s.evmVersion s.eofVersion s.language s.optimiserSettings
            s.debugInfoSelection)
          cs.name (env.printObject o ++ "\n") = .ok (false, clean) →
      YulStack.reparse env s =
        .error (.assertFailure ("Invalid IR generated:\n" ++ (env.printObject o ++ "\n")))) := by
  constructor
  · intro s2 hs2
    rw [reparse_unfold env s o cs hres hcs hstate hcode] at hs2
    revert hs2
    cases hpa : YulStack.parseAndAnalyze env
        (freshStack s.evmVersion s.eofVersion s.language s.optimiserSettings s.debugInfoSelection)
        cs.name (env.printObject o ++ "\n") with
    | error f => intro hs2; exact absurd hs2 (by simp)
    | ok p =>
        obtain ⟨b, clean⟩ := p
        cases b with
        | false => intro hs2; exact absurd hs2 (by simp)
        | true =>
            intro hs2
            simp only [Except.ok.injEq] at hs2
            subst hs2
            exact ⟨clean, rfl, rfl⟩
  · intro clean hpa
    rw [reparse_unfold env s o cs hres hcs hstate hcode, hpa]

/-- C4 witness: a concrete reparse of the parsed instance adopts the fresh
    instance's tree and state `AnalysisSuccessful`. -/
theorem reparse_roundtrip_witness :
    ∃ clean, YulStack.parseAndAnalyze baseEnv
        (freshStack parsedStack.evmVersion parsedStack.eofVersion parsedStack.language
          parsedStack.optimiserSettings parsedStack.debugInfoSelection)
        (CharStream.mk "original-src" "input.yul").name
        (baseEnv.printObject simpleObject ++ "\n") = .ok (true, clean) ∧
      analyzedStack = { parsedStack with stackState := .AnalysisSuccessful,
                                         parserResult := clean.parserResult } :=
  (reparse_roundtrip baseEnv parsedStack simpleObject
      (CharStream.mk "original-src" "input.yul") rfl rfl rfl rfl).1 analyzedStack rfl

/-- Collapsing two nested stage writes into one disjunction, inner write first. -/
theorem ite_or_collapse_right {α : Type} (b c : Bool) (x y : α) :
    (if c then x else if b then x else y) = (if b || c then x else y) := by
  cases b <;> cases c <;> rfl

/-- A fully successful subtree witnesses `anySubtreeOk` at its own root. -/
theorem treeAnalysisOk_imp_any (env : Env) (o : ObjectNode) (hobj : o.isObject = true)
    (h : treeAnalysisOk env o = true) : anySubtreeOk env o = true := by
  cases o with
  | data n => simp [ObjectNode.isObject] at hobj
  | object name code info subs => simp [anySubtreeOk, h]

mutual

/-- Characterisation of the recursive analyzer driver on one code unit under a
    fault-free analyzer: the verdict is the conjunction over the unit and all its
    descendants, the returned tree carries fresh analysis metadata on every unit,
    the diagnostics of every unit are appended in traversal order, and the stack
    state has been raised to `AnalysisSuccessful` exactly when some unit's
    subtree fully succeeded. -/
theorem analyzeParsedObj_spec (env : Env) (s : YulStack) (o : ObjectNode)
    (hstate : s.stackState.geq .Parsed = true)
    (hobj : o.isObject = true)
    (hcode : allHaveCode o = true)
    (hfault : noAnalyzerFault env o = true) :
    YulStack.analyzeParsedObj env s o =
      .ok (treeAnalysisOk env o, markAnalyzed o,
        { s with errors := s.errors ++ treeDiags env o,
                 stackState := if anySubtreeOk env o then .AnalysisSuccessful
                               else s.stackState }) := by
  cases o with
  | data n => simp [ObjectNode.isObject] at hobj
  | object name code info subs =>
      cases code with
      | none => simp [allHaveCode] at hcode
      | some root =>
          simp only [allHaveCode, Option.isSome_some, Bool.true_and] at hcode
          simp only [noAnalyzerFault, Bool.and_eq_true] at hfault
          obtain ⟨hfhead, hftail⟩ := hfault
          cases hA : env.analyze root
              (env.qualifiedDataNames (.object name (some root) true subs)) with
          | error e => simp [hA] at hfhead
          | ok p =>
              obtain ⟨b, ds⟩ := p
              simp only [YulStack.analyzeParsedObj, hstate, if_true, hA]
              rw [analyzeSubs_spec env { s with errors := s.errors ++ ds } subs hstate
                hcode hftail]
              simp only [treeAnalysisOk, treeDiags, anySubtreeOk, markAnalyzed, hA]
              cases b <;> cases hl : treeAnalysisOkList env subs <;>
                cases ha : anySubtreeOkList env subs <;> simp [List.append_assoc, hl, ha]

/-- Characterisation of the analyzer driver's sub-object loop under a fault-free
    analyzer; companion to `analyzeParsedObj_spec`. -/
theorem analyzeSubs_spec (env : Env) (s : YulStack) (nodes : List ObjectNode)
    (hstate : s.stackState.geq .Parsed = true)
    (hcode : allHaveCodeList nodes = true)
    (hfault : noAnalyzerFaultList env nodes = true) :
    YulStack.analyzeSubs env s nodes =
      .ok (treeAnalysisOkList env nodes, markAnalyzedList nodes,
        { s with errors := s.errors ++ treeDiagsList env nodes,
                 stackState := if anySubtreeOkList env nodes then .AnalysisSuccessful
                               else s.stackState }) := by
  cases nodes with
  | nil =>
      simp [YulStack.analyzeSubs, treeAnalysisOkList, markAnalyzedList, treeDiagsList,
        anySubtreeOkList]
  | cons n rest =>
      simp only [allHaveCodeList, Bool.and_eq_true] at hcode
      obtain ⟨hc1, hcr⟩ := hcode
      simp only [noAnalyzerFaultList, Bool.and_eq_true] at hfault
      obtain ⟨hf1, hfr⟩ := hfault
      cases n with
      | data dn =>
          simp only [YulStack.analyzeSubs]
          rw [analyzeSubs_spec env s rest hstate hcr hfr]
          simp [treeAnalysisOkList, treeAnalysisOk, markAnalyzedList, markAnalyzed,
            treeDiagsList, treeDiags, anySubtreeOkList, anySubtreeOk]
      | object oname ocode oinfo osubs =>
          have hstate1 : (if anySubtreeOk env (ObjectNode.object oname ocode oinfo osubs)
              then StackState.AnalysisSuccessful else s.stackState).geq .Parsed = true := by
            cases h1 : anySubtreeOk env (ObjectNode.object oname ocode oinfo osubs)
            · simpa using hstate
            · simp [StackState.geq, StackState.toNat]
          simp only [YulStack.analyzeSubs]
          simp only [analyzeParsedObj_spec env s (ObjectNode.object oname ocode oinfo osubs)
            hstate rfl hc1 hf1]
          rw [analyzeSubs_spec env
            { s with errors := s.errors ++ treeDiags env (ObjectNode.object oname ocode oinfo osubs),
                     stackState := if anySubtreeOk env (ObjectNode.object oname ocode oinfo osubs)
                                   then StackState.AnalysisSuccessful else s.stackState }
            rest hstate1 hcr hfr]
          simp only [treeAnalysisOkList, markAnalyzedList, treeDiagsList, anySubtreeOkList]
          simp [List.append_assoc, ite_or_collapse_right]

end

/-- C5: under a fault-free analyzer, `analyzeParsed` visits every unit of the
    tree — the returned tree carries freshly installed analysis metadata on every
    code unit, even below and beside units whose analysis failed — accumulates
    every unit's diagnostics in traversal order, and returns the conjunction of
    this unit's and every descendant unit's verdict. -/
theorem analyzeParsed_visits_all (env : Env) (s : YulStack) (o : ObjectNode)
    (hstate : s.stackState.geq .Parsed = true)
    (hres : s.parserResult = some o)
    (hobj : o.isObject = true)
    (hcode : allHaveCode o = true)
    (hfault : noAnalyzerFault env o = true) :
    YulStack.analyzeParsed env s =
      .ok (treeAnalysisOk env o,
        { s with parserResult := some (markAnalyzed o),
                 errors := s.errors ++ treeDiags env o,
                 stackState := if anySubtreeOk env o then .AnalysisSuccessful
                               else s.stackState }) := by
  unfold YulStack.analyzeParsed
  rw [if_pos hstate]
  simp only [hres]
  rw [analyzeParsedObj_spec env s o hstate hobj hcode hfault]

/-- C5 witness: the two-failing-siblings tree yields overall failure, both
    sub-units' diagnostics, and a fully visited (metadata-complete) tree. -/
theorem analyzeParsed_visits_all_witness :
    YulStack.analyzeParsed twoFailEnv twoFailStack =
      .ok (treeAnalysisOk twoFailEnv twoFailTree,
        { twoFailStack with parserResult := some (markAnalyzed twoFailTree),
                            errors := twoFailStack.errors ++ treeDiags twoFailEnv twoFailTree,
                            stackState := if anySubtreeOk twoFailEnv twoFailTree
                                          then .AnalysisSuccessful
                                          else twoFailStack.stackState }) ∧
    treeAnalysisOk twoFailEnv twoFailTree = false ∧
    treeDiags twoFailEnv twoFailTree = [.err "sub A failed", .err "sub B failed"] ∧
    markAnalyzed twoFailTree =
      .object "object" (some 0) true
        [.object "A" (some 1) true [], .object "B" (some 2) true []] :=
  ⟨analyzeParsed_visits_all twoFailEnv twoFailStack twoFailTree rfl rfl rfl (by decide)
      (by decide),
   rfl, rfl, rfl⟩

/-- C6 counterexample: on `rootFailTree` the overall analysis fails (the root's
    own analysis is rejected), yet the pipeline state after the call is
    `AnalysisSuccessful` — not below it — because the successful sub-unit's
    recursive call already wrote that state. -/
theorem analyzeParsed_failure_state_not_below :
    (YulStack.analyzeParsed rootFailEnv rootFailStack).map (fun r => (r.1, r.2.stackState)) =
      .ok (false, .AnalysisSuccessful) ∧
    rootFailStack.stackState = .Parsed ∧
    StackState.AnalysisSuccessful.geq .AnalysisSuccessful = true :=
  ⟨rfl, rfl, rfl⟩

/-- C6 (amended): under a fault-free analyzer, starting from state `Parsed`, the
    state after `analyzeParsed` is `AnalysisSuccessful` exactly when some unit's
    whole subtree analyzed successfully — in particular on overall success — and
    otherwise stays `Parsed`; a failing overall analysis can therefore still
    leave the state at `AnalysisSuccessful` through a successful sub-unit. -/
theorem analyzeParsed_state_after (env : Env) (s : YulStack) (o : ObjectNode)
    (hstate : s.stackState = .Parsed)
    (hres : s.parserResult = some o)
    (hobj : o.isObject = true)
    (hcode : allHaveCode o = true)
    (hfault : noAnalyzerFault env o = true) :
    ∀ b s2, YulStack.analyzeParsed env s = .ok (b, s2) →
      (s2.stackState = if anySubtreeOk env o then .AnalysisSuccessful else .Parsed) ∧
      (b = true → s2.stackState = .AnalysisSuccessful) := by
  have hgeq : s.stackState.geq .Parsed = true := by rw [hstate]; rfl
  intro b s2 h
  unfold YulStack.analyzeParsed at h
  rw [if_pos hgeq] at h
  simp only [hres] at h
  rw [analyzeParsedObj_spec env s o hgeq hobj hcode hfault] at h
  simp only [Except.ok.injEq, Prod.mk.injEq] at h
  obtain ⟨hb, hs2⟩ := h
  subst hb
  subst hs2
  constructor
  · simp [hstate]
  · intro htr
    have hany := treeAnalysisOk_imp_any env o hobj htr
    simp [hany]

/-- C6 witness: the concrete failing-root run lands exactly in the state the
    amended characterisation predicts. -/
theorem analyzeParsed_state_after_witness :
    YulStack.analyzeParsed rootFailEnv rootFailStack = .ok (false, rootFailResult) ∧
    rootFailResult.stackState =
      (if anySubtreeOk rootFailEnv rootFailTree then StackState.AnalysisSuccessful
       else StackState.Parsed) :=
  ⟨rfl,
   (analyzeParsed_state_after rootFailEnv rootFailStack rootFailTree rfl rfl rfl (by decide)
       (by decide) false rootFailResult rfl).1⟩

mutual

/-- Characterisation of the per-unit optimizer under the weight-probing suite:
    every unit's AST becomes the record of the weight argument the suite
    received — `0` (withheld) for units passed as creation code, weight plus one
    for runtime units — with sub-units classified by the `_deployed` suffix. -/
theorem optimizeObjProbe (base : Env) (cfg : OptimiserSettings) (o : ObjectNode) (isC : Bool)
    (hobj : o.isObject = true) (hcode : allHaveCode o = true) (hinfo : allInfoSet o = true)
    (hres : resolvable cfg = true) :
    YulStack.optimizeObj (weightProbeEnv base) cfg o isC =
      .ok (probeExpected cfg o isC, none) := by
  cases o with
  | data n => simp [ObjectNode.isObject] at hobj
  | object name code info subs =>
      cases code with
      | none => simp [allHaveCode] at hcode
      | some root =>
          simp only [allHaveCode, Option.isSome_some, Bool.true_and] at hcode
          simp only [allInfoSet, Bool.and_eq_true] at hinfo
          obtain ⟨hi1, hir⟩ := hinfo
          simp only [YulStack.optimizeObj, hi1, if_true]
          simp only [optimizeSubsProbe base cfg subs hcode hir hres]
          cases hr : resolveOptimizationTriple cfg with
          | error f => simp [resolvable, hr] at hres
          | ok t =>
              obtain ⟨alloc, steps, cleanup⟩ := t
              simp only [weightProbeEnv]
              cases isC <;> simp [probeExpected]

/-- Companion to `optimizeObjProbe` for the sub-object loop. -/
theorem optimizeSubsProbe (base : Env) (cfg : OptimiserSettings) (nodes : List ObjectNode)
    (hcode : allHaveCodeList nodes = true) (hinfo : allInfoSetList nodes = true)
    (hres : resolvable cfg = true) :
    YulStack.optimizeSubs (weightProbeEnv base) cfg nodes =
      .ok (probeExpectedList cfg nodes, none) := by
  cases nodes with
  | nil => simp [YulStack.optimizeSubs, probeExpectedList]
  | cons n rest =>
      simp only [allHaveCodeList, Bool.and_eq_true] at hcode
      obtain ⟨hc1, hcr⟩ := hcode
      simp only [allInfoSetList, Bool.and_eq_true] at hinfo
      obtain ⟨hi1, hir⟩ := hinfo
      cases n with
      | data dn =>
          simp only [YulStack.optimizeSubs]
          rw [optimizeSubsProbe base cfg rest hcr hir hres]
          simp [probeExpectedList]
      | object oname ocode oinfo osubs =>
          simp only [YulStack.optimizeSubs]
          simp only [optimizeObjProbe base cfg (ObjectNode.object oname ocode oinfo osubs)
            (!boostEndsWith oname "_deployed") rfl hc1 hi1 hres]
          rw [optimizeSubsProbe base cfg rest hcr hir hres]
          simp [probeExpectedList]

end

/-- C7: a sub-unit is classified as runtime/deployed code iff its name ends in
    `_deployed`, the root handed to the optimizer by `optimize()` is always
    classified as creation code regardless of its own name, and the configured
    expected-executions weight is passed to the optimiser suite exactly for
    runtime units and withheld for creation units (observed through a suite that
    records its weight argument in each unit's AST). -/
theorem optimize_classification_and_weight (base : Env) (cfg : OptimiserSettings)
    (o : ObjectNode) (isC : Bool) (s : YulStack)
    (hobj : o.isObject = true) (hcode : allHaveCode o = true) (hinfo : allInfoSet o = true)
    (hres : resolvable cfg = true)
    (hstate : s.stackState = .AnalysisSuccessful) (hresO : s.parserResult = some o)
    (hcfg : s.optimiserSettings = cfg)
    (hpath : (!s.optimiserSettings.runYulOptimiser &&
        (weightProbeEnv base).containsMSize o) = false) :
    YulStack.optimizeObj (weightProbeEnv base) cfg o isC =
      .ok (probeExpected cfg o isC, none) ∧
    YulStack.optimize (weightProbeEnv base) s =
      YulStack.reparse (weightProbeEnv base)
        { s with stackState := .Parsed, parserResult := some (probeExpected cfg o true) } := by
  refine ⟨optimizeObjProbe base cfg o isC hobj hcode hinfo hres, ?_⟩
  rw [optimize_unfold (weightProbeEnv base) s o hstate hresO hpath]
  rw [hcfg]
  simp only [optimizeObjProbe base cfg o true hobj hcode hinfo hres]

/-- C7 witness: on a tree whose root itself carries the `_deployed` suffix, the
    probing run still treats the root as creation code (weight withheld, recorded
    `0`), treats sub-unit `A` as creation code and sub-unit `A_deployed` as
    runtime code (weight `2` supplied, recorded `3`), and skips the data node. -/
theorem optimize_classification_witness :
    YulStack.optimizeObj (weightProbeEnv baseEnv) enabledSettings probeTree true =
      .ok (.object "wrapper_deployed" (some 0) true
            [.object "A" (some 0) true [],
             .object "A_deployed" (some 3) true [],
             .data "rodata"], none) :=
  (optimize_classification_and_weight baseEnv enabledSettings probeTree true probeStack
      rfl (by decide) (by decide) rfl rfl rfl rfl (by decide)).1

/-- C8: when compilation succeeds, the creation result of
    `assembleEVMWithDeployed` is always the full (post-optimisation) assembly
    tree; with an explicit deploy name the deployed result is the first immediate
    sub-assembly whose name matches exactly and a missing match is a fatal
    assertion; with no name the deployed result is the single sub-assembly when
    there is exactly one and absent otherwise. -/
theorem assembleEVMWithDeployed_selection (env : Env) (s : YulStack) (o : ObjectNode)
    (asm : Assembly)
    (hstate : s.stackState.geq .AnalysisSuccessful = true)
    (hres : s.parserResult = some o) (hcode : o.hasCode = true)
    (hinfo : o.analysisInfoSet = true)
    (hcompile : env.compile o (s.optimiserSettings.optimizeStackAllocation ||
        (!s.optimiserSettings.runYulOptimiser && !env.containsMSize o)) = (asm, none)) :
    (∀ nm sub, (env.optimise asm).subs.find? (fun a => a.name == nm) = some sub →
        YulStack.assembleEVMWithDeployed env s (some nm) =
          .ok ((some (env.optimise asm), some sub), s)) ∧
    (∀ nm, (env.optimise asm).subs.find? (fun a => a.name == nm) = none →
        YulStack.assembleEVMWithDeployed env s (some nm) =
          .error (.assertFailure "Failed to find object to be deployed.")) ∧
    (∀ sub, (env.optimise asm).subs = [sub] →
        YulStack.assembleEVMWithDeployed env s none =
          .ok ((some (env.optimise asm), some sub), s)) ∧
    ((env.optimise asm).subs.length ≠ 1 →
        YulStack.assembleEVMWithDeployed env s none =
          .ok ((some (env.optimise asm), none), s)) := by
  have hunfold : ∀ dn, YulStack.assembleEVMWithDeployed env s dn =
      (match dn with
       | some nm =>
           (match (env.optimise asm).subs.find? (fun sub => sub.name == nm) with
            | none => .error (.assertFailure "Failed to find object to be deployed.")
            | some runtimeAssembly => .ok ((some (env.optimise asm), some runtimeAssembly), s))
       | none =>
           (match (env.optimise asm).subs with
            | [runtimeAssembly] => .ok ((some (env.optimise asm), some runtimeAssembly), s)
            | _ => .ok ((some (env.optimise asm), none), s))) := by
    intro dn
    unfold YulStack.assembleEVMWithDeployed
    rw [if_pos hstate]
    simp only [hres]
    rw [if_pos hcode, if_pos hinfo]
    simp only [hcompile]
  refine ⟨?_, ?_, ?_, ?_⟩
  · intro nm sub hfind
    rw [hunfold (some nm)]
    simp only [hfind]
  · intro nm hfind
    rw [hunfold (some nm)]
    simp only [hfind]
  · intro sub hsubs
    rw [hunfold none, hsubs]
  · intro hlen
    rw [hunfold none]
    cases hsubs : (env.optimise asm).subs with
    | nil => rfl
    | cons a t =>
        cases t with
        | nil => exact absurd (by rw [hsubs]; rfl) hlen
        | cons b t2 => rfl

/-- C8 witness: with exactly one sub-assembly named `Runtime` and no explicit
    deploy name, the creation result is the full optimised assembly and the
    deployed result is that single sub-assembly. -/
theorem assembleEVMWithDeployed_selection_witness :
    YulStack.assembleEVMWithDeployed oneSubEnv analyzedStack none =
      .ok ((some (oneSubEnv.optimise (Assembly.mk "root" 0 [runtimeSub])), some runtimeSub),
           analyzedStack) :=
  (assembleEVMWithDeployed_selection oneSubEnv analyzedStack simpleObject
      (Assembly.mk "root" 0 [runtimeSub]) rfl rfl rfl rfl rfl).2.2.1 runtimeSub rfl

/-- C10: for the EVM machine, `assemble` returns exactly the creation member of
    the pair produced by `assembleWithDeployed` with no deploy name supplied (the
    deployed member is computed and discarded, all other effects identical). -/
theorem assemble_is_creation_member (env : Env) (s : YulStack) (o : ObjectNode)
    (hstate : s.stackState.geq .AnalysisSuccessful = true)
    (hres : s.parserResult = some o) (hcode : o.hasCode = true)
    (hinfo : o.analysisInfoSet = true) :
    YulStack.assemble env s .EVM =
      (YulStack.assembleWithDeployed env s none).map (fun r => (r.1.1, r.2)) := by
  unfold YulStack.assemble
  rw [if_pos hstate]
  simp only [hres]
  rw [if_pos hcode, if_pos hinfo]
  cases h : YulStack.assembleWithDeployed env s none with
  | error f => simp [Except.map]
  | ok r =>
      obtain ⟨pair, s1⟩ := r
      simp [Except.map]

/-- C10 witness: the concrete EVM assemble call equals the creation member of the
    concrete `assembleWithDeployed` call. -/
theorem assemble_is_creation_member_witness :
    YulStack.assemble oneSubEnv analyzedStack .EVM =
      (YulStack.assembleWithDeployed oneSubEnv analyzedStack none).map
        (fun r => (r.1.1, r.2)) :=
  assemble_is_creation_member oneSubEnv analyzedStack simpleObject rfl rfl rfl rfl
